import Mathlib

/-!
Verification development for the `vaultenv` program (`main.go`): a line-oriented
template filter that resolves secret references against an Azure Key Vault,
authenticating through a chain of token providers.

The Go source is shallowly embedded below.  Strings are Lean `String`s and all
helpers are written as structural recursions over `String.data` so that every
definition evaluates inside the kernel.  The injectable `httpClient` interface
of the source (`Do(req) (*Response, error)`) is a Lean function
`Request → Except String Response`; `(string, error)` pairs of Go are embedded
as a value plus an `Option Err`.  Side effects that the claims talk about
(which providers ran, which HTTP requests were issued, whether an API client
was constructed) are made observable as an explicit `Event` trace returned by
each embedded operation.
-/

namespace Vaultenv

/-- Characters for the template delimiters, named so that brace characters do
not appear literally in the source text. -/
def lbrace : Char := Char.ofNat 123

/-- Closing template delimiter character. -/
def rbrace : Char := Char.ofNat 125

/-- Does the character list `s` start with the list `pat`? -/
def listStartsWith : List Char → List Char → Bool
| _, [] => true
| [], _ :: _ => false
| a :: as, b :: bs => a = b && listStartsWith as bs

/-- Does the character list `s` end with the list `pat`? -/
def listEndsWith (s pat : List Char) : Bool :=
  listStartsWith s.reverse pat.reverse

/-- Model of Go `strings.HasSuffix`. -/
def strHasSuffix (s suffix : String) : Bool :=
  listEndsWith s.data suffix.data

/-- Split a character list on a separator character (model of the list-level
part of `strings.Split`). -/
def splitOnChar (c : Char) : List Char → List (List Char)
| [] => [[]]
| a :: as =>
  let r := splitOnChar c as
  if a = c then [] :: r
  else match r with
  | [] => [[a]]
  | s :: rest => (a :: s) :: rest

/-- Take characters up to (excluding) the first occurrence of `c`. -/
def takeUntilChar (c : Char) : List Char → List Char
| [] => []
| a :: as => if a = c then [] else a :: takeUntilChar c as

/-- Span: characters before the first one satisfying `p`, and the rest
(starting with that character). -/
def spanUntil (p : Char → Bool) : List Char → List Char × List Char
| [] => ([], [])
| a :: as =>
  if p a then ([], a :: as)
  else
    let r := spanUntil p as
    (a :: r.1, r.2)

/-- Errors of the embedded program.  Each constructor models one way the Go
code builds an `error` value:
`notAvailable` is `errTokenProviderNotAvailable`;
`simple msg` is `errors.New(msg)` (e.g. the raw HTTP status in `fetchToken`);
`providerWrap t e` is the chain's `fmt.Errorf("%T: %w", provider, err)` where
`t` records the provider's dynamic type;
`tokenWrap e` is `fmt.Errorf("failed to get token: %w", err)` in `getToken`;
`decodeTokenWrap m` is `fmt.Errorf("failed to decode token: %w", err)`;
`invalidURL raw` is `fmt.Errorf("Invalid url - %s", rawurl)` in `fetch`;
`httpStatus url status` is `fmt.Errorf("GET %s - %s", url, res.Status)`;
`transport m` is an error returned by `client.Do`;
`decodeErr m` is a JSON decode error returned unwrapped by `fetch`;
`parseErr raw` is a `url.Parse` error;
`templateParse line` is the parse error on which `template.Must` panics. -/
inductive Err where
| notAvailable
| simple (msg : String)
| providerWrap (ptype : String) (e : Err)
| tokenWrap (e : Err)
| decodeTokenWrap (msg : String)
| invalidURL (rawurl : String)
| httpStatus (url status : String)
| transport (msg : String)
| decodeErr (msg : String)
| parseErr (rawurl : String)
| templateParse (line : String)
deriving DecidableEq

/-- Model of `errors.Is(err, errTokenProviderNotAvailable)`: the two `%w`
wrappings in the source preserve the wrapped error for `errors.Is`. -/
def isNotAvailable : Err → Bool
| .notAvailable => true
| .providerWrap _ e => isNotAvailable e
| .tokenWrap e => isNotAvailable e
| _ => false

/-- An HTTP request as the embedded program builds it. -/
structure Request where
  method : String
  url : String
  headers : List (String × String)
  body : String
deriving DecidableEq

/-- A response body, pre-decoded: `malformed m` models a JSON body on which
`json.Decoder.Decode` fails with message `m`; `object fields` models a flat
JSON object of string fields (the decoders in the source read a single string
field and leave it `""` when absent). -/
inductive JsonBody where
| malformed (msg : String)
| object (fields : List (String × String))
deriving DecidableEq

/-- An HTTP response as the embedded client returns it. -/
structure Response where
  status : Nat
  statusText : String
  body : JsonBody
deriving DecidableEq

/-- The injected `httpClient` capability: `Do(req)` returning a response or a
transport error message. -/
abbrev Client := Request → Except String Response

/-- Look up a string field of a decoded JSON object; a missing field decodes
to the zero value `""` as with Go's `encoding/json`. -/
def lookupField (fields : List (String × String)) (key : String) : String :=
  match fields with
  | [] => ""
  | (k, v) :: rest => if k = key then v else lookupField rest key

/-- Observable side effects of the embedded operations.
`providerCalled n` records an invocation of the `Token()` method of the
provider whose dynamic type is `n`; `httpDo req` records a call of
`client.Do(req)`; `clientCreate host` would record the construction of a
per-vault API client — the source constructs its single `http.Client` once in
`main` and never inside a lookup, so no embedded operation emits it; the
constructor exists so that claims about client construction are statable. -/
inductive Event where
| providerCalled (name : String)
| httpDo (req : Request)
| clientCreate (host : String)
deriving DecidableEq

/-- Is this event a `clientCreate`? -/
def isClientCreateEvent : Event → Bool
| .clientCreate _ => true
| _ => false

/-- Is this event a `providerCalled`? -/
def isProviderCalledEvent : Event → Bool
| .providerCalled _ => true
| _ => false

/-- Is this event an `httpDo`? -/
def isHttpDoEvent : Event → Bool
| .httpDo _ => true
| _ => false

/-- A token provider as the chain sees it: an opaque implementor of the
`tokenProvider` interface.  `name` models the dynamic type that `%T` prints;
`result` is the `(string, error)` pair its `Token()` method returns. -/
structure Provider where
  name : String
  result : String × Option Err
deriving DecidableEq

/-- Result of a `Token()`-shaped call: the `(string, error)` pair together
with the trace of events the call performed. -/
structure ChainRes where
  token : String
  err? : Option Err
  events : List Event
deriving DecidableEq

/-- Embedding of `tokenProviderChain.Token`: try each provider in order;
`errors.Is(err, errTokenProviderNotAvailable)` means continue, any other
error is returned wrapped as `fmt.Errorf("%T: %w", provider, err)`, a nil
error returns the token; an exhausted list returns
`errTokenProviderNotAvailable`. -/
def chainToken : List Provider → ChainRes
| [] => ⟨"", some .notAvailable, []⟩
| p :: ps =>
  match p.result.2 with
  | some e =>
    if isNotAvailable e then
      let r := chainToken ps
      ⟨r.token, r.err?, .providerCalled p.name :: r.events⟩
    else ⟨"", some (.providerWrap p.name e), [.providerCalled p.name]⟩
  | none => ⟨p.result.1, none, [.providerCalled p.name]⟩

/-- The `fetcher` struct: the injected HTTP client, the token provider (in
`main` this is the `tokenProviderChain`, embedded here as its provider list),
and the cached token (`""` when no token has been cached yet). -/
structure Fetcher where
  client : Client
  providers : List Provider
  token : String

/-- Result of a fetcher method: the `(string, error)` pair, the fetcher state
after the call, and the trace of events. -/
structure FetchRes where
  value : String
  err? : Option Err
  fetcher : Fetcher
  events : List Event

/-- Embedding of `fetcher.getToken`: a non-empty cached token is returned
unconditionally; otherwise the chain is invoked once, its error is wrapped as
`failed to get token: %w` with nothing cached, and its token is stored in
`f.token` and returned. -/
def getToken (f : Fetcher) : FetchRes :=
  if f.token ≠ "" then ⟨f.token, none, f, []⟩
  else
    let r := chainToken f.providers
    match r.err? with
    | some e => ⟨"", some (.tokenWrap e), f, r.events⟩
    | none => ⟨r.token, none, { f with token := r.token }, r.events⟩

/-- A parsed URL (the components of `*url.URL` this program reads).
`authority` is the `host[:port]` part. -/
structure URL where
  scheme : String
  authority : String
  path : String
  query : String
deriving DecidableEq

/-- Is this an ASCII control character (which `url.Parse` rejects)? -/
def isCtlChar (c : Char) : Bool := c.toNat < 32 || c.toNat = 127

/-- Find the first occurrence of a `://` separator, returning the characters
before it and after it. -/
def findSchemeSep : List Char → Option (List Char × List Char)
| [] => none
| ':' :: '/' :: '/' :: rest => some ([], rest)
| c :: rest =>
  match findSchemeSep rest with
  | none => none
  | some r => some (c :: r.1, r.2)

/-- Model of `net/url.Parse` restricted to the URL shapes this program
handles: `scheme://host[:port]/path[?query]` without userinfo, fragments or
percent-escapes, or a scheme-less string (which Go parses with an empty
host).  The only parse failure modelled is the control-character check that
makes `url.Parse` return an error. -/
def parseURL (raw : String) : Option URL :=
  if raw.data.any isCtlChar then none
  else
    match findSchemeSep raw.data with
    | none =>
      let r := spanUntil (fun c => c = '?') raw.data
      some ⟨"", "", ⟨r.1⟩, ⟨r.2.drop 1⟩⟩
    | some sr =>
      let ar := spanUntil (fun c => c = '/' || c = '?') sr.2
      let pr := spanUntil (fun c => c = '?') ar.2
      some ⟨⟨sr.1⟩, ⟨ar.1⟩, ⟨pr.1⟩, ⟨pr.2.drop 1⟩⟩

/-- Model of `url.URL.Hostname()`: the authority with any `:port` removed. -/
def hostnameOf (u : URL) : String := ⟨takeUntilChar ':' u.authority.data⟩

/-- Model of the `%s` formatting of a `*url.URL` (its `String()` method) for
the URL shapes handled by `parseURL`. -/
def urlString (u : URL) : String :=
  u.scheme ++ "://" ++ u.authority ++ u.path
    ++ (if u.query = "" then "" else "?" ++ u.query)

/-- The authenticated vault read request `fetch` builds:
`GET rawurl?api-version=7.0` with a bearer `Authorization` header and
`Accept: application/json`. -/
def vaultRequest (rawurl token : String) : Request :=
  ⟨"GET", rawurl ++ "?api-version=7.0",
   [("Authorization", "Bearer " ++ token), ("Accept", "application/json")], ""⟩

/-- Embedding of `fetcher.fetch`: parse the secret reference URL, require the
hostname to end in `vault.azure.net` (else `Invalid url - %s`), obtain the
bearer token through `getToken`, issue the authenticated GET through the
injected client, require status 200 (else `GET %s - %s` with the parsed URL),
and decode the `value` field of the JSON body. -/
def fetch (f : Fetcher) (rawurl : String) : FetchRes :=
  match parseURL rawurl with
  | none => ⟨"", some (.parseErr rawurl), f, []⟩
  | some u =>
    if strHasSuffix (hostnameOf u) "vault.azure.net" then
      let g := getToken f
      match g.err? with
      | some e => ⟨"", some e, g.fetcher, g.events⟩
      | none =>
        let req := vaultRequest rawurl g.value
        match g.fetcher.client req with
        | .error msg => ⟨"", some (.transport msg), g.fetcher, g.events ++ [.httpDo req]⟩
        | .ok res =>
          if res.status ≠ 200 then
            ⟨"", some (.httpStatus (urlString u) res.statusText), g.fetcher,
             g.events ++ [.httpDo req]⟩
          else
            match res.body with
            | .malformed m =>
              ⟨"", some (.decodeErr m), g.fetcher, g.events ++ [.httpDo req]⟩
            | .object fields =>
              ⟨lookupField fields "value", none, g.fetcher, g.events ++ [.httpDo req]⟩
    else ⟨"", some (.invalidURL rawurl), f, []⟩

/-- UTF-8 encoding of a character, as the byte values `url.QueryEscape`
operates on. -/
def utf8Bytes (c : Char) : List Nat :=
  let n := c.toNat
  if n < 128 then [n]
  else if n < 2048 then [192 + n / 64, 128 + n % 64]
  else if n < 65536 then [224 + n / 4096, 128 + (n / 64) % 64, 128 + n % 64]
  else [240 + n / 262144, 128 + (n / 4096) % 64, 128 + (n / 64) % 64, 128 + n % 64]

/-- Is this byte left unescaped by `url.QueryEscape` (ASCII alphanumerics and
`-._~`)? -/
def isUnreserved (n : Nat) : Bool :=
  (65 ≤ n && n ≤ 90) || (97 ≤ n && n ≤ 122) || (48 ≤ n && n ≤ 57)
    || n = 45 || n = 95 || n = 46 || n = 126

/-- Upper-case hexadecimal digit for a value below 16. -/
def hexDigitChar (n : Nat) : Char :=
  if n < 10 then Char.ofNat (48 + n) else Char.ofNat (55 + n)

/-- Escape one byte as `url.QueryEscape` does: unreserved bytes pass through,
a space becomes `+`, anything else becomes `%XX`. -/
def escapeByte (n : Nat) : List Char :=
  if isUnreserved n then [Char.ofNat n]
  else if n = 32 then ['+']
  else ['%', hexDigitChar (n / 16), hexDigitChar (n % 16)]

/-- Model of `url.QueryEscape`. -/
def queryEscape (s : String) : String :=
  ⟨((s.data.map utf8Bytes).flatten.map escapeByte).flatten⟩

/-- Byte-lexicographic comparison of strings as character lists (for ASCII
data this coincides with Go's `string` ordering used by `url.Values.Encode`).
-/
def charListLe : List Char → List Char → Bool
| [], _ => true
| _ :: _, [] => false
| a :: as, b :: bs =>
  if a.toNat = b.toNat then charListLe as bs
  else if a.toNat < b.toNat then true else false

/-- Insert a key/value pair into a key-sorted list. -/
def insertSorted (p : String × String) : List (String × String) → List (String × String)
| [] => [p]
| q :: qs => if charListLe p.1.data q.1.data then p :: q :: qs else q :: insertSorted p qs

/-- Sort key/value pairs by key. -/
def sortByKey (l : List (String × String)) : List (String × String) :=
  l.foldr insertSorted []

/-- Join strings with `&` separators. -/
def joinAmp : List String → String
| [] => ""
| [s] => s
| s :: rest => s ++ "&" ++ joinAmp rest

/-- Model of `url.Values.Encode()`: keys sorted, each pair query-escaped and
joined with `&`. -/
def encodeValues (l : List (String × String)) : String :=
  joinAmp ((sortByKey l).map fun p => queryEscape p.1 ++ "=" ++ queryEscape p.2)

/-- Shared tail of both concrete providers (`fetchToken` in the source):
issue the request, require status 200 (else the raw status text as the
error), decode `access_token` (a decode failure is wrapped as
`failed to decode token: %w`). -/
def fetchTokenHTTP (client : Client) (req : Request) : ChainRes :=
  match client req with
  | .error msg => ⟨"", some (.transport msg), [.httpDo req]⟩
  | .ok res =>
    if res.status ≠ 200 then ⟨"", some (.simple res.statusText), [.httpDo req]⟩
    else
      match res.body with
      | .malformed m => ⟨"", some (.decodeTokenWrap m), [.httpDo req]⟩
      | .object fields => ⟨lookupField fields "access_token", none, [.httpDo req]⟩

/-- The token request `clientCredentialTokenProvider.Token` builds: note the
source passes the literal method `"GET"` to `http.NewRequest` while attaching
a form-encoded body of `grant_type`, `client_id`, `client_secret` and the
fixed `resource`, against the tenant-parameterized endpoint. -/
def clientCredentialRequest (clientId clientSecret tenant : String) : Request :=
  ⟨"GET",
   "https://login.microsoftonline.com/" ++ tenant ++ "/oauth2/token",
   [("Content-Type", "application/x-www-form-urlencoded")],
   encodeValues
     [("grant_type", "client_credentials"), ("client_id", clientId),
      ("client_secret", clientSecret), ("resource", "https://vault.azure.net")]⟩

/-- Embedding of `clientCredentialTokenProvider.Token`: an empty client id is
`errTokenProviderNotAvailable`; otherwise the token request is issued through
`fetchToken`. -/
def clientCredentialToken (client : Client) (clientId clientSecret tenant : String) : ChainRes :=
  if clientId = "" then ⟨"", some .notAvailable, []⟩
  else fetchTokenHTTP client (clientCredentialRequest clientId clientSecret tenant)

/-- Embedding of `vmIdentityTokenProvider.Token`: a GET to the fixed local
metadata endpoint with the `Metadata: true` header. -/
def vmIdentityToken (client : Client) : ChainRes :=
  fetchTokenHTTP client
    ⟨"GET",
     "http://169.254.169.254/metadata/identity/oauth2/token?api-version=2019-06-04&resource=https%3A%2F%2Fvault.azure.net",
     [("Metadata", "true")], ""⟩

/-- A parsed template line: literal text interleaved with `kv` lookup
actions. -/
inductive Segment where
| lit (s : String)
| kv (url : String)
deriving DecidableEq

/-- Skip ASCII spaces. -/
def skipSpaces : List Char → List Char
| ' ' :: rest => skipSpaces rest
| cs => cs

/-- Read characters up to a closing double quote, returning the content and
the remainder after the quote. -/
def takeUntilQuote : List Char → Option (List Char × List Char)
| [] => none
| '"' :: rest => some ([], rest)
| c :: rest =>
  match takeUntilQuote rest with
  | none => none
  | some r => some (c :: r.1, r.2)

/-- Parse the inside of an action, after the opening delimiter: optional
spaces, the identifier `kv`, at least one space, a quoted string, optional
spaces and the closing delimiter.  Returns the quoted URL and the characters
after the action.  Anything else is a parse error, matching `text/template`
on the fragment this program uses (only the `kv` function is registered). -/
def parseActionBody (cs : List Char) : Option (String × List Char) :=
  match skipSpaces cs with
  | 'k' :: 'v' :: c :: cs2 =>
    if c = ' ' then
      match skipSpaces cs2 with
      | '"' :: cs3 =>
        match takeUntilQuote cs3 with
        | some ur =>
          match skipSpaces ur.2 with
          | d :: d2 :: rest =>
            if d = rbrace && d2 = rbrace then some (⟨ur.1⟩, rest) else none
          | _ => none
        | none => none
      | _ => none
    else none
  | _ => none

/-- Fuel-indexed scanner for a template line: text is literal until a double
opening delimiter starts an action.  The fuel argument only bounds the
recursion; `parseTemplate` supplies enough for the whole line. -/
def parseSegsFuel : Nat → List Char → Option (List Segment)
| 0, _ => none
| _ + 1, [] => some []
| fuel + 1, c :: cs =>
  if c = lbrace then
    match cs with
    | c2 :: cs2 =>
      if c2 = lbrace then
        match parseActionBody cs2 with
        | none => none
        | some ur =>
          match parseSegsFuel fuel ur.2 with
          | none => none
          | some segs => some (.kv ur.1 :: segs)
      else
        match parseSegsFuel fuel cs with
        | none => none
        | some segs => some (.lit ⟨[c]⟩ :: segs)
    | [] => some [.lit ⟨[c]⟩]
  else
    match parseSegsFuel fuel cs with
    | none => none
    | some segs => some (.lit ⟨[c]⟩ :: segs)

/-- Model of parsing one line with `text/template` restricted to the grammar
this program uses: literal text and `kv`-lookup actions with one literal
string argument.  `none` models a parse error (on which `template.Must`
panics in `filter`). -/
def parseTemplate (line : String) : Option (List Segment) :=
  parseSegsFuel (line.data.length + 1) line.data

/-- Result of handling one input line: the error if the line aborted the run,
the output text emitted for the line (on an abort, the partial output written
before the failure, as `template.Execute` writes to the output writer as it
walks the parsed line), the fetcher state after the line, and the events. -/
structure LineRes where
  err? : Option Err
  out : String
  fetcher : Fetcher
  events : List Event

/-- Execute the parsed segments of a line left to right, threading the
fetcher state: literal text is written as encountered, each `kv` action
fetches and writes its secret value, and the first failing action stops
execution with the output written so far (matching `template.Execute`, which
writes to the output writer eagerly). -/
def runSegments (f : Fetcher) : List Segment → LineRes
| [] => ⟨none, "", f, []⟩
| .lit s :: rest =>
  let r := runSegments f rest
  ⟨r.err?, s ++ r.out, r.fetcher, r.events⟩
| .kv u :: rest =>
  let r0 := fetch f u
  match r0.err? with
  | some e => ⟨some e, "", r0.fetcher, r0.events⟩
  | none =>
    let r := runSegments r0.fetcher rest
    ⟨r.err?, r0.value ++ r.out, r.fetcher, r0.events ++ r.events⟩

/-- Handle one non-empty line: parse it as a template (a parse error emits
nothing) and execute it. -/
def runLine (f : Fetcher) (line : String) : LineRes :=
  match parseTemplate line with
  | none => ⟨some (.templateParse line), "", f, []⟩
  | some segs => runSegments f segs

/-- Result of a `filter` run: the aborting error if any, the completed lines
in order (output text of each line, without its trailing newline, and the
events of that line), the partial output of the aborting line, and the final
fetcher state. -/
structure FilterResult where
  err? : Option Err
  outs : List (String × List Event)
  abortOut : String
  fetcher : Fetcher

/-- Process the scanned lines in order, as the loop body of `filter`: an
empty line emits only its newline with no template handling; a non-empty line
is parsed and executed, a failure aborting the whole run (the panic in the
source) with the partial output of the failing line already written. -/
def runLines (f : Fetcher) : List String → FilterResult
| [] => ⟨none, [], "", f⟩
| line :: rest =>
  if line = "" then
    let r := runLines f rest
    ⟨r.err?, ("", []) :: r.outs, r.abortOut, r.fetcher⟩
  else
    let lr := runLine f line
    match lr.err? with
    | some e => ⟨some e, [], lr.out, lr.fetcher⟩
    | none =>
      let r := runLines lr.fetcher rest
      ⟨r.err?, (lr.out, lr.events) :: r.outs, r.abortOut, r.fetcher⟩

/-- Drop one trailing carriage return (the `dropCR` step of
`bufio.ScanLines`). -/
def dropCRl (cs : List Char) : List Char :=
  if listEndsWith cs ['\r'] then cs.dropLast else cs

/-- Drop a final empty piece, so that input ending in a newline does not
produce an extra empty token. -/
def dropFinalEmpty : List (List Char) → List (List Char)
| [] => []
| [[]] => []
| [x] => [x]
| x :: xs => x :: dropFinalEmpty xs

/-- Model of scanning an input stream with `bufio.Scanner` and the default
`ScanLines` split: tokens are the text between newlines, a trailing carriage
return is dropped, a final newline does not yield an empty token, and empty
input yields no tokens. -/
def scanLines (s : String) : List String :=
  (dropFinalEmpty (splitOnChar '\n' s.data)).map fun cs => ⟨dropCRl cs⟩

/-- Embedding of `filter`: scan the input into lines and process them in
order, writing each completed line's output followed by a newline. -/
def filter (f : Fetcher) (input : String) : FilterResult :=
  runLines f (scanLines input)

/-- The text a `filter` run leaves on the output stream: each completed
line's output with its trailing newline, then the partial output of the
aborting line if the run aborted. -/
def filterOutput (r : FilterResult) : String :=
  String.join (r.outs.map fun p => p.1 ++ "\n") ++ r.abortOut

/-- Definition taken from the spec's words, for comparison with the source
(the source's `fetch` has no corresponding check).  Modelled from the spec:
"path must decompose into exactly 1 or 2 non-empty segments after the fixed
`/secrets/` prefix; anything else is a parse error". -/
def specSecretPathOK (path : String) : Bool :=
  listStartsWith path.data "/secrets/".data &&
    (let segs := splitOnChar '/' (path.data.drop 9)
     ((segs.length = 1 || segs.length = 2) && segs.all fun s => !s.isEmpty))

/-- A stub client in the style of the repository's `dummyClient`: every
request gets status 200 and a JSON object carrying a `value` and an
`access_token` field. -/
def okClient : Client := fun _ =>
  .ok ⟨200, "200 OK", .object [("value", "v"), ("access_token", "atok")]⟩

/-- A provider whose `Token()` succeeds with `"tok"`. -/
def provOk : Provider := ⟨"*main.vmIdentityTokenProvider", ("tok", none)⟩

/-- A provider that reports `errTokenProviderNotAvailable`. -/
def provNA : Provider := ⟨"*main.clientCredentialTokenProvider", ("", some .notAvailable)⟩

/-- A provider that fails hard with the message `boom`. -/
def provFail : Provider := ⟨"*main.clientCredentialTokenProvider", ("", some (.simple "boom"))⟩

/-- A provider whose `Token()` succeeds with the empty token. -/
def provEmptyTok : Provider := ⟨"*main.vmIdentityTokenProvider", ("", none)⟩

/-- A provider whose `Token()` succeeds with `"tok2"`. -/
def provOk2 : Provider := ⟨"*main.vmIdentityTokenProvider", ("tok2", none)⟩

/-- A fetcher with no cached token and a succeeding provider. -/
def permissiveF : Fetcher := ⟨okClient, [provOk], ""⟩

/-- A fetcher that already holds the cached token `"tok0"`. -/
def cachedF : Fetcher := ⟨okClient, [provOk], "tok0"⟩

/-- A fetcher whose only provider fails hard. -/
def failF : Fetcher := ⟨okClient, [provFail], ""⟩

/-- A fetcher whose provider succeeds with the empty token. -/
def emptyTokF : Fetcher := ⟨okClient, [provEmptyTok], ""⟩

/-- A secret URL with a valid vault host but a path that violates the spec's
`SecretReference` invariant. -/
def urlNoSecretsPath : String := "https://vault.azure.net/foo/a/b/c"

/-- A well-formed secret URL on the accepted vault domain. -/
def urlSecret : String := "https://vault.azure.net/secrets/pass"

/-- A secret URL whose host is outside the accepted vault domain. -/
def urlBadHost : String := "https://invalid.sensyn.net/secrets/pass"

/-- A second secret URL on a different vault host. -/
def urlOtherHost : String := "https://other.vault.azure.net/secrets/x"

/-- A three-line input (literal line, blank line, lookup line) on which every
lookup succeeds. -/
def inpOk : String :=
  "A=1\n\nB=\x7b\x7b kv \"https://vault.azure.net/secrets/pass\" \x7d\x7d\n"

/-- A two-line input whose second line fails at its lookup after the literal
`B=` has been written. -/
def inpFail : String :=
  "A=1\nB=\x7b\x7b kv \"https://vault.azure.net/secrets/p\" \x7d\x7d"

/-- A fetcher that already holds the cached token `"tok"`. -/
def primedF : Fetcher := ⟨okClient, [provOk], "tok"⟩

theorem str_append_empty (s : String) : s ++ "" = s := by
  cases s
  show String.mk _ = String.mk _
  simp [String.append]

/-- C1: whenever the chain's `Token()` returns a token, that token comes from
the first provider in list order whose `Token()` succeeded (every provider
before it returned an error), and exactly the providers up to and including
that first success were invoked — the ones after it never ran. -/
theorem chain_first_success (ps : List Provider)
    (h : (chainToken ps).err? = none) :
    ∃ pre q post, ps = pre ++ q :: post
      ∧ (∀ r ∈ pre, (r.result.2).isSome = true)
      ∧ q.result = ((chainToken ps).token, none)
      ∧ (chainToken ps).events =
          (pre ++ [q]).map fun r => Event.providerCalled r.name := by
  induction ps with
  | nil => simp [chainToken] at h
  | cons p ps ih =>
    rcases hp : p.result.2 with _ | e
    · refine ⟨[], p, ps, rfl, by simp, ?_, ?_⟩
      · simp only [chainToken, hp]
        rw [← hp, Prod.mk.eta]
      · simp [chainToken, hp]
    · by_cases hna : isNotAvailable e = true
      · have h' : (chainToken ps).err? = none := by
          simp only [chainToken, hp, hna, if_true] at h
          exact h
        obtain ⟨pre, q, post, hps, hpre, hq, hev⟩ := ih h'
        refine ⟨p :: pre, q, post, by simp [hps], ?_, ?_, ?_⟩
        · intro r hr
          rcases List.mem_cons.mp hr with hr | hr
          · rw [hr, hp]; rfl
          · exact hpre r hr
        · simpa [chainToken, hp, hna] using hq
        · simp only [chainToken, hp, hna, if_true]
          simp [hev]
      · simp only [chainToken, hp] at h
        rw [if_neg hna] at h
        simp at h

/-- C1 witness: for the chain `[provNA, provOk2]` the first success is
`provOk2` and both providers (and nothing after the success) are invoked. -/
theorem chain_first_success_witness :
    ∃ pre q post, [provNA, provOk2] = pre ++ q :: post
      ∧ (∀ r ∈ pre, (r.result.2).isSome = true)
      ∧ q.result = ((chainToken [provNA, provOk2]).token, none)
      ∧ (chainToken [provNA, provOk2]).events =
          (pre ++ [q]).map fun r => Event.providerCalled r.name :=
  chain_first_success [provNA, provOk2] (by decide)

/-- C2: if every provider before `p` reported `NotAvailable` and `p` fails
with a hard (non-`NotAvailable`) error `e`, the chain stops at `p`: it
returns `e` wrapped with `p`'s identity (`%T: %w`), and the invoked providers
are exactly those before `p` plus `p` itself — no later provider (in
particular no later succeeding provider) is ever invoked. -/
theorem chain_hard_error_short_circuits (pre : List Provider) (p : Provider)
    (post : List Provider) (e : Err)
    (hpre : ∀ q ∈ pre, ∃ e', q.result.2 = some e' ∧ isNotAvailable e' = true)
    (hp : p.result.2 = some e) (he : isNotAvailable e = false) :
    chainToken (pre ++ p :: post) =
      ⟨"", some (.providerWrap p.name e),
       (pre.map fun q => Event.providerCalled q.name)
         ++ [.providerCalled p.name]⟩ := by
  induction pre with
  | nil => simp [chainToken, hp, he]
  | cons q pre ih =>
    obtain ⟨e', hq, hna⟩ := hpre q (by simp)
    have hrec := ih fun r hr => hpre r (by simp [hr])
    simp [chainToken, hq, hna, hrec]

/-- C2 witness: for the chain `[provFail, provOk2]`, the result is
`provFail`'s wrapped failure, and `provOk2` is never invoked, so its token is
never observed. -/
theorem chain_hard_error_short_circuits_witness :
    chainToken [provFail, provOk2] =
      ⟨"", some (.providerWrap "*main.clientCredentialTokenProvider" (.simple "boom")),
       [.providerCalled "*main.clientCredentialTokenProvider"]⟩ :=
  chain_hard_error_short_circuits [] provFail [provOk2] (.simple "boom")
    (by intro q hq; cases hq) rfl rfl

/-- C3: `getToken` with a cached (non-empty) token returns it without
invoking the chain; with no cached token it runs the chain once, caching the
token on success and, on failure, returning the error wrapped as
`failed to get token: %w` while caching nothing; and once a token is cached,
a `fetch` against any URL (any vault host) invokes no provider. -/
theorem getToken_cache_policy (f : Fetcher) :
    (f.token ≠ "" → getToken f = ⟨f.token, none, f, []⟩)
    ∧ (f.token = "" → (chainToken f.providers).err? = none →
        getToken f = ⟨(chainToken f.providers).token, none,
          { f with token := (chainToken f.providers).token },
          (chainToken f.providers).events⟩)
    ∧ (f.token = "" → ∀ e, (chainToken f.providers).err? = some e →
        getToken f = ⟨"", some (.tokenWrap e), f, (chainToken f.providers).events⟩)
    ∧ (∀ raw, f.token ≠ "" →
        ((fetch f raw).events.countP isProviderCalledEvent) = 0) := by
  refine ⟨?_, ?_, ?_, ?_⟩
  · intro h
    simp [getToken, h]
  · intro h hc
    simp only [getToken, h, ne_eq, not_true_eq_false, if_false]
    rw [show (chainToken f.providers).err? = none from hc]
  · intro h e hc
    simp only [getToken, h, ne_eq, not_true_eq_false, if_false]
    rw [show (chainToken f.providers).err? = some e from hc]
  · intro raw h
    have hg : getToken f = ⟨f.token, none, f, []⟩ := by simp [getToken, h]
    unfold fetch
    cases hp : parseURL raw with
    | none => simp
    | some u =>
      by_cases hs : strHasSuffix (hostnameOf u) "vault.azure.net"
      · simp only [hs, if_true, hg]
        cases hdo : f.client (vaultRequest raw f.token) with
        | error m => simp [isProviderCalledEvent]
        | ok res =>
          by_cases hst : res.status ≠ 200
          · simp [hst, isProviderCalledEvent]
          · simp only [hst, if_false]
            cases res.body <;> simp [isProviderCalledEvent]
      · simp [hs]

/-- C3 witness: the fetcher `cachedF` (cached token `"tok0"`) returns the
cached token with no provider invocation, and a lookup against a different
vault host invokes no provider either. -/
theorem getToken_cache_policy_witness :
    getToken cachedF = ⟨"tok0", none, cachedF, []⟩
    ∧ ((fetch cachedF urlOtherHost).events.countP isProviderCalledEvent) = 0 :=
  ⟨(getToken_cache_policy cachedF).1 (by decide),
   (getToken_cache_policy cachedF).2.2.2 urlOtherHost (by decide)⟩

/-- C10: when the chain succeeds with the empty token, `getToken` returns the
empty token without error but leaves the fetcher unchanged (the `token`
field, set to `""`, still counts as "no cached token"), so the next call runs
the chain again; and whenever the cached token ends up non-empty, it is
exactly the successful result of the call, hence the cache, once set, is
never the empty string. -/
theorem getToken_empty_token_not_cached (f : Fetcher)
    (hf : f.token = "") (ht : (chainToken f.providers).token = "")
    (he : (chainToken f.providers).err? = none) :
    (getToken f).value = "" ∧ (getToken f).err? = none
    ∧ (getToken f).fetcher = f
    ∧ (getToken (getToken f).fetcher).events = (chainToken f.providers).events
    ∧ (∀ g : Fetcher, (getToken g).fetcher.token ≠ "" →
        ((getToken g).err? = none
          ∧ (getToken g).value = (getToken g).fetcher.token)) := by
  have hstep : getToken f = ⟨"", none, f, (chainToken f.providers).events⟩ := by
    simp only [getToken, hf, ne_eq, not_true_eq_false, if_false]
    rw [show (chainToken f.providers).err? = none from he, ht]
    cases f with
    | mk c ps tok =>
      simp at hf
      simp [hf]
  refine ⟨by simp [hstep], by simp [hstep], by simp [hstep], by simp [hstep], ?_⟩
  intro g hg
  by_cases hgt : g.token ≠ ""
  · simp [getToken, hgt]
  · simp only [ne_eq, not_not] at hgt
    simp only [getToken, hgt, ne_eq, not_true_eq_false, if_false] at hg ⊢
    cases hc : (chainToken g.providers).err? with
    | some e => rw [hc] at hg; simp [hgt] at hg
    | none => simp

/-- C10 witness: for `emptyTokF` (chain succeeds with `""`) the call returns
the empty token without error and caches nothing, and for `cachedF` the
non-empty cache is exactly the successfully returned token. -/
theorem getToken_empty_token_not_cached_witness :
    (getToken emptyTokF).value = "" ∧ (getToken emptyTokF).err? = none
    ∧ (getToken emptyTokF).fetcher = emptyTokF
    ∧ ((getToken cachedF).err? = none
        ∧ (getToken cachedF).value = (getToken cachedF).fetcher.token) :=
  ⟨(getToken_empty_token_not_cached emptyTokF (by decide) (by decide) (by decide)).1,
   (getToken_empty_token_not_cached emptyTokF (by decide) (by decide) (by decide)).2.1,
   (getToken_empty_token_not_cached emptyTokF (by decide) (by decide) (by decide)).2.2.1,
   (getToken_empty_token_not_cached emptyTokF (by decide) (by decide) (by decide)).2.2.2.2
     cachedF (by decide)⟩

/-- C6: for a secret reference URL that parses but whose hostname does not
end in the accepted `vault.azure.net` suffix, `fetch` returns the
`Invalid url - %s` error carrying the offending URL, leaves the fetcher
unchanged, and performs no event at all — no provider is invoked and no HTTP
request is issued. -/
theorem fetch_invalid_host_no_side_effects (f : Fetcher) (raw : String) (u : URL)
    (hp : parseURL raw = some u)
    (hs : strHasSuffix (hostnameOf u) "vault.azure.net" = false) :
    fetch f raw = ⟨"", some (.invalidURL raw), f, []⟩ := by
  unfold fetch
  rw [hp]
  simp [hs]

/-- C6 witness: the test URL on `invalid.sensyn.net` fails with the invalid
URL error and an empty event trace, even though the fetcher's provider would
have failed hard had it been consulted. -/
theorem fetch_invalid_host_no_side_effects_witness :
    fetch failF urlBadHost = ⟨"", some (.invalidURL urlBadHost), failF, []⟩ :=
  fetch_invalid_host_no_side_effects failF urlBadHost
    ⟨"https", "invalid.sensyn.net", "/secrets/pass", ""⟩ (by decide) (by decide)

/-- C4 counterexample: the URL `https://vault.azure.net/foo/a/b/c` violates
the spec's `SecretReference` path invariant (`specSecretPathOK` is false),
yet `fetch` returns the vault's value without any error and issues exactly
one HTTP request — the source contains no path decomposition at all, so the
claimed parse/validation error does not happen. -/
theorem fetch_no_path_validation_cex :
    specSecretPathOK "/foo/a/b/c" = false
    ∧ parseURL urlNoSecretsPath = some ⟨"https", "vault.azure.net", "/foo/a/b/c", ""⟩
    ∧ (fetch permissiveF urlNoSecretsPath).err? = none
    ∧ (fetch permissiveF urlNoSecretsPath).value = "v"
    ∧ (fetch permissiveF urlNoSecretsPath).events.countP isHttpDoEvent = 1 := by
  decide

/-- C4 (amended): `fetch` performs no path-shape validation: for every URL
that parses and whose hostname ends in the accepted suffix, once a token is
available the authenticated vault request for `rawurl?api-version=7.0` is
issued regardless of the shape of the path. -/
theorem fetch_issues_request_regardless_of_path (f : Fetcher) (raw : String) (u : URL)
    (hp : parseURL raw = some u)
    (hs : strHasSuffix (hostnameOf u) "vault.azure.net" = true)
    (ht : f.token ≠ "") :
    Event.httpDo (vaultRequest raw f.token) ∈ (fetch f raw).events := by
  unfold fetch
  rw [hp]
  simp only [hs, if_true]
  have hg : getToken f = ⟨f.token, none, f, []⟩ := by simp [getToken, ht]
  simp only [hg]
  split <;> (try split) <;> (try split) <;> simp

/-- C4 amended witness: with a cached token, the lookup of
`https://vault.azure.net/foo/a/b/c` (an invalid path shape per the spec)
still issues its vault request. -/
theorem fetch_issues_request_regardless_of_path_witness :
    Event.httpDo (vaultRequest urlNoSecretsPath "tok")
      ∈ (fetch primedF urlNoSecretsPath).events :=
  fetch_issues_request_regardless_of_path primedF urlNoSecretsPath
    ⟨"https", "vault.azure.net", "/foo/a/b/c", ""⟩ (by decide) (by decide) (by decide)

theorem chainToken_no_clientCreate (ps : List Provider) :
    (chainToken ps).events.countP isClientCreateEvent = 0 := by
  induction ps with
  | nil => rfl
  | cons p ps ih =>
    rcases hp : p.result.2 with _ | e
    · simp [chainToken, hp, isClientCreateEvent]
    · by_cases hna : isNotAvailable e = true
      · simp [chainToken, hp, hna, isClientCreateEvent, ih]
      · simp [chainToken, hp, hna, isClientCreateEvent]

/-- C7 counterexample: two successful lookups against the same vault host
construct no client at all — the construction count for the host is `0`, not
the `1` the claim's lazily-constructed-per-host cache would require; the one
`http.Client` is built in `main` before any lookup and the `fetcher` holds no
client cache. -/
theorem fetch_client_not_constructed_per_host_cex :
    (fetch permissiveF urlSecret).err? = none
    ∧ (fetch (fetch permissiveF urlSecret).fetcher urlSecret).err? = none
    ∧ ((fetch permissiveF urlSecret).events
        ++ (fetch (fetch permissiveF urlSecret).fetcher urlSecret).events).countP
          isClientCreateEvent = 0
    ∧ (0 : Nat) ≠ 1 := by
  decide

/-- C7 (amended): every lookup in a run uses the single HTTP client the
fetcher was constructed with: `fetch` leaves the `client` field untouched and
never constructs a client, so any two lookups — same host or not — share that
one client. -/
theorem fetch_single_client_reused (f : Fetcher) (raw : String) :
    (fetch f raw).fetcher.client = f.client
    ∧ (fetch f raw).events.countP isClientCreateEvent = 0 := by
  have hget : (getToken f).fetcher.client = f.client
      ∧ (getToken f).events.countP isClientCreateEvent = 0 := by
    unfold getToken
    by_cases h : f.token ≠ ""
    · simp [h]
    · simp only [h, if_false]
      cases hc : (chainToken f.providers).err? with
      | some e => simp [chainToken_no_clientCreate]
      | none => simp [chainToken_no_clientCreate]
  unfold fetch
  cases hp : parseURL raw with
  | none => simp
  | some u =>
    by_cases hs : strHasSuffix (hostnameOf u) "vault.azure.net"
    · simp only [hs, if_true]
      rcases hGT : getToken f with ⟨tok, terr, f1, evs1⟩
      rw [hGT] at hget
      have h1 : f1.client = f.client := hget.1
      have h0 : evs1.countP isClientCreateEvent = 0 := hget.2
      have hev : ∀ r : Request,
          (evs1 ++ [Event.httpDo r]).countP isClientCreateEvent = 0 := by
        intro r
        simp [List.countP_append, List.countP_cons, h0, isClientCreateEvent]
      dsimp only
      cases terr with
      | some e => exact ⟨h1, h0⟩
      | none =>
        dsimp only
        split <;> (try split) <;> (try split) <;> exact ⟨h1, hev _⟩
    · simp [hs]

/-- C5: evidence for the request-method slip in
`clientCredentialTokenProvider.Token`: at a concrete provider with a
non-empty client id, the token request carries exactly the claimed
tenant-parameterized endpoint, the form content type, and the form-encoded
body with `grant_type=client_credentials`, the client id, the client secret
and the fixed resource — but its HTTP method is the literal `"GET"` passed to
`http.NewRequest`, not the `POST` the claim (and the OAuth2 protocol the spec
names) prescribes. -/
theorem clientCredential_token_request_uses_get :
    (clientCredentialRequest "myid" "mysecret" "mytenant").method = "GET"
    ∧ (clientCredentialRequest "myid" "mysecret" "mytenant").method ≠ "POST"
    ∧ (clientCredentialRequest "myid" "mysecret" "mytenant").url
        = "https://login.microsoftonline.com/mytenant/oauth2/token"
    ∧ (clientCredentialRequest "myid" "mysecret" "mytenant").headers
        = [("Content-Type", "application/x-www-form-urlencoded")]
    ∧ (clientCredentialRequest "myid" "mysecret" "mytenant").body
        = "client_id=myid&client_secret=mysecret&grant_type=client_credentials&resource=https%3A%2F%2Fvault.azure.net"
    ∧ (clientCredentialToken okClient "myid" "mysecret" "mytenant").events
        = [Event.httpDo (clientCredentialRequest "myid" "mysecret" "mytenant")]
    ∧ (clientCredentialToken okClient "myid" "mysecret" "mytenant").token = "atok" := by
  decide

theorem runLines_success (f : Fetcher) (ls : List String)
    (h : (runLines f ls).err? = none) :
    (runLines f ls).outs.length = ls.length
    ∧ (runLines f ls).abortOut = ""
    ∧ ∀ i, ls.get? i = some "" → (runLines f ls).outs.get? i = some ("", []) := by
  induction ls generalizing f with
  | nil =>
    refine ⟨rfl, rfl, ?_⟩
    intro i hi
    simp at hi
  | cons l ls ih =>
    by_cases hl : l = ""
    · have hrec : runLines f (l :: ls) =
          ⟨(runLines f ls).err?, ("", []) :: (runLines f ls).outs,
           (runLines f ls).abortOut, (runLines f ls).fetcher⟩ := by
        simp [runLines, hl]
      rw [hrec] at h ⊢
      obtain ⟨hlen, hab, hidx⟩ := ih f h
      refine ⟨by simp [hlen], hab, ?_⟩
      intro i hi
      cases i with
      | zero => simp
      | succ j =>
        rw [List.get?_cons_succ] at hi ⊢
        exact hidx j hi
    · cases hlr : (runLine f l).err? with
      | some e =>
        have : (runLines f (l :: ls)).err? = some e := by
          simp [runLines, hl, hlr]
        rw [this] at h
        cases h
      | none =>
        have hrec : runLines f (l :: ls) =
            ⟨(runLines (runLine f l).fetcher ls).err?,
             ((runLine f l).out, (runLine f l).events)
               :: (runLines (runLine f l).fetcher ls).outs,
             (runLines (runLine f l).fetcher ls).abortOut,
             (runLines (runLine f l).fetcher ls).fetcher⟩ := by
          simp [runLines, hl, hlr]
        rw [hrec] at h ⊢
        obtain ⟨hlen, hab, hidx⟩ := ih (runLine f l).fetcher h
        refine ⟨by simp [hlen], hab, ?_⟩
        intro i hi
        cases i with
        | zero =>
          rw [List.get?_cons_zero] at hi
          exact absurd (Option.some.inj hi) hl
        | succ j =>
          rw [List.get?_cons_succ] at hi ⊢
          exact hidx j hi

/-- C8: on an input whose run succeeds, the output mirrors the input line
count (one completed output per scanned line, nothing extra), the whole
output is the concatenation of the lines' outputs each terminated with a
newline (including the last), and every blank input line yields a blank
output line with an empty event trace — no lookup invoked for it. -/
theorem filter_success_mirrors_lines (f : Fetcher) (input : String)
    (h : (filter f input).err? = none) :
    (filter f input).outs.length = (scanLines input).length
    ∧ (filter f input).abortOut = ""
    ∧ filterOutput (filter f input)
        = String.join ((filter f input).outs.map fun p => p.1 ++ "\n")
    ∧ ∀ i, (scanLines input).get? i = some ""
        → (filter f input).outs.get? i = some ("", []) := by
  obtain ⟨h1, h2, h3⟩ := runLines_success f (scanLines input) h
  have h2' : (filter f input).abortOut = "" := h2
  exact ⟨h1, h2, by rw [filterOutput, h2', str_append_empty], h3⟩

/-- C8 witness: on the three-line input `inpOk` (literal line, blank line,
lookup line) the run succeeds, the output has one entry per line with no
partial output, and the blank second line produced a blank output with no
events. -/
theorem filter_success_mirrors_lines_witness :
    (filter permissiveF inpOk).outs.length = (scanLines inpOk).length
    ∧ (filter permissiveF inpOk).abortOut = ""
    ∧ (filter permissiveF inpOk).outs.get? 1 = some ("", []) := by
  have H := filter_success_mirrors_lines permissiveF inpOk (by decide)
  exact ⟨H.1, H.2.1, H.2.2.2 1 (by decide)⟩

/-- C9 counterexample: on `inpFail` the second line fails at its lookup, but
only after its literal prefix `B=` has been written: the output stream at the
abort point is `A=1\nB=`, which is not exactly the output `A=1\n` of lines 1
through k-1 — `template.Execute` writes to the output writer as it walks the
line, so the failing line's partial output is already emitted. -/
theorem filter_abort_partial_line_cex :
    (filter failF inpFail).err?
        = some (.tokenWrap (.providerWrap "*main.clientCredentialTokenProvider"
            (.simple "boom")))
    ∧ filterOutput (filter failF inpFail) = "A=1\nB="
    ∧ ("A=1\nB=" : String) ≠ "A=1\n" := by
  decide

theorem runLines_abort (f : Fetcher) (ls : List String) (e : Err)
    (h : (runLines f ls).err? = some e) :
    ∃ k, ∃ hk : k < ls.length,
      (runLines f ls).outs.length = k
      ∧ (runLines f (ls.take k)).err? = none
      ∧ (runLines f (ls.take k)).outs = (runLines f ls).outs
      ∧ (runLine (runLines f (ls.take k)).fetcher (ls.get ⟨k, hk⟩)).err? = some e
      ∧ (runLine (runLines f (ls.take k)).fetcher (ls.get ⟨k, hk⟩)).out
          = (runLines f ls).abortOut := by
  induction ls generalizing f with
  | nil => simp [runLines] at h
  | cons l ls ih =>
    by_cases hl : l = ""
    · have hrec : runLines f (l :: ls) =
          ⟨(runLines f ls).err?, ("", []) :: (runLines f ls).outs,
           (runLines f ls).abortOut, (runLines f ls).fetcher⟩ := by
        simp [runLines, hl]
      rw [hrec] at h
      obtain ⟨k, hk, hlen, htake, houts, herr, hout⟩ := ih f h
      have htk : (l :: ls).take (k + 1) = l :: ls.take k := rfl
      have hrectk : runLines f ((l :: ls).take (k + 1)) =
          ⟨(runLines f (ls.take k)).err?, ("", []) :: (runLines f (ls.take k)).outs,
           (runLines f (ls.take k)).abortOut, (runLines f (ls.take k)).fetcher⟩ := by
        rw [htk]
        simp [runLines, hl]
      refine ⟨k + 1, Nat.succ_lt_succ hk, ?_, ?_, ?_, ?_, ?_⟩
      · rw [hrec]
        simpa using hlen
      · rw [hrectk]
        exact htake
      · rw [hrectk, hrec]
        simpa using houts
      · rw [hrectk]
        exact herr
      · rw [hrectk, hrec]
        exact hout
    · cases hlr : (runLine f l).err? with
      | some e' =>
        have hrec : runLines f (l :: ls) =
            ⟨some e', [], (runLine f l).out, (runLine f l).fetcher⟩ := by
          simp [runLines, hl, hlr]
        rw [hrec] at h
        have he : e' = e := Option.some.inj h
        refine ⟨0, Nat.succ_pos _, by rw [hrec]; rfl, rfl, by rw [hrec]; rfl, ?_, ?_⟩
        · show (runLine (runLines f []).fetcher l).err? = some e
          rw [← he]
          exact hlr
        · show (runLine (runLines f []).fetcher l).out = _
          rw [hrec]
          rfl
      | none =>
        have hrec : runLines f (l :: ls) =
            ⟨(runLines (runLine f l).fetcher ls).err?,
             ((runLine f l).out, (runLine f l).events)
               :: (runLines (runLine f l).fetcher ls).outs,
             (runLines (runLine f l).fetcher ls).abortOut,
             (runLines (runLine f l).fetcher ls).fetcher⟩ := by
          simp [runLines, hl, hlr]
        rw [hrec] at h
        obtain ⟨k, hk, hlen, htake, houts, herr, hout⟩ := ih (runLine f l).fetcher h
        have htk : (l :: ls).take (k + 1) = l :: ls.take k := rfl
        have hrectk : runLines f ((l :: ls).take (k + 1)) =
            ⟨(runLines (runLine f l).fetcher (ls.take k)).err?,
             ((runLine f l).out, (runLine f l).events)
               :: (runLines (runLine f l).fetcher (ls.take k)).outs,
             (runLines (runLine f l).fetcher (ls.take k)).abortOut,
             (runLines (runLine f l).fetcher (ls.take k)).fetcher⟩ := by
          rw [htk]
          simp [runLines, hl, hlr]
        refine ⟨k + 1, Nat.succ_lt_succ hk, ?_, ?_, ?_, ?_, ?_⟩
        · rw [hrec]
          simpa using hlen
        · rw [hrectk]
          exact htake
        · rw [hrectk, hrec]
          simpa using houts
        · rw [hrectk]
          exact herr
        · rw [hrectk, hrec]
          exact hout

/-- C9 (amended): when a run aborts with error `e`, it aborts at a definite
failing line `k` (0-based): the completed outputs are exactly the outputs of
the successful run of lines `0..k-1` alone, the failing line's `runLine`
produced the error and the partial output recorded at the abort, and the
output stream at the abort point is the completed lines — each terminated
with a newline, unchanged — followed by that partial output of the failing
line (and nothing from any later line). -/
theorem filter_abort_prefix (f : Fetcher) (input : String) (e : Err)
    (h : (filter f input).err? = some e) :
    ∃ k, ∃ hk : k < (scanLines input).length,
      (filter f input).outs.length = k
      ∧ (runLines f ((scanLines input).take k)).err? = none
      ∧ (runLines f ((scanLines input).take k)).outs = (filter f input).outs
      ∧ (runLine (runLines f ((scanLines input).take k)).fetcher
            ((scanLines input).get ⟨k, hk⟩)).err? = some e
      ∧ (runLine (runLines f ((scanLines input).take k)).fetcher
            ((scanLines input).get ⟨k, hk⟩)).out = (filter f input).abortOut
      ∧ filterOutput (filter f input)
          = String.join ((filter f input).outs.map fun p => p.1 ++ "\n")
              ++ (filter f input).abortOut := by
  obtain ⟨k, hk, h1, h2, h3, h4, h5⟩ := runLines_abort f (scanLines input) e h
  exact ⟨k, hk, h1, h2, h3, h4, h5, rfl⟩

/-- C9 amended witness: the abort of `inpFail` instantiates the amended
statement at the concrete failing run. -/
theorem filter_abort_prefix_witness :
    ∃ k, ∃ hk : k < (scanLines inpFail).length,
      (filter failF inpFail).outs.length = k
      ∧ (runLines failF ((scanLines inpFail).take k)).err? = none
      ∧ (runLines failF ((scanLines inpFail).take k)).outs = (filter failF inpFail).outs
      ∧ (runLine (runLines failF ((scanLines inpFail).take k)).fetcher
            ((scanLines inpFail).get ⟨k, hk⟩)).err?
          = some (.tokenWrap (.providerWrap "*main.clientCredentialTokenProvider"
              (.simple "boom")))
      ∧ (runLine (runLines failF ((scanLines inpFail).take k)).fetcher
            ((scanLines inpFail).get ⟨k, hk⟩)).out = (filter failF inpFail).abortOut
      ∧ filterOutput (filter failF inpFail)
          = String.join ((filter failF inpFail).outs.map fun p => p.1 ++ "\n")
              ++ (filter failF inpFail).abortOut :=
  filter_abort_prefix failF inpFail
    (.tokenWrap (.providerWrap "*main.clientCredentialTokenProvider" (.simple "boom")))
    (by decide)

end Vaultenv
